import Mathlib

/-!
Shallow embedding of the core of a CMake-driving extension:
the subprocess line-demultiplexing engine (`proc.ts` / `execute`),
the cache-file parser (`CMakeCache.parseCache` / `fromPath`),
the target-list parser (`TargetListParser`) and the legacy driver
state machine (`LegacyCMakeDriver`).

Strings are modelled as `List Char`; chunked asynchronous delivery is
modelled as an explicit fold over the list of delivered chunks.
-/

namespace CMT

/-! ## ProcessRunner: line demultiplexing (src/src/proc.ts, `execute`) -/

/-- Embeds the per-fragment carriage-return strip
`l.endsWith('\r') ? l.substr(0, l.length - 1) : l` from proc.ts line 110. -/
def stripCR : List Char → List Char
  | [] => []
  | [c] => if c = '\r' then [] else [c]
  | c :: c2 :: rest => c :: stripCR (c2 :: rest)

/-- One step of splitting a character stream at `'\n'`:
grows the pair (completed fragments, trailing fragment). -/
def splitNlStep (c : Char) (p : List (List Char) × List Char) :
    List (List Char) × List Char :=
  if c = '\n' then ([] :: p.1, p.2)
  else
    match p.1 with
    | [] => ([], c :: p.2)
    | f :: fs => ((c :: f) :: fs, p.2)

/-- Embeds `str.split('\n')` (proc.ts line 110) as the pair of the
completed (newline-terminated) fragments and the trailing fragment. -/
def splitNl (l : List Char) : List (List Char) × List Char :=
  l.foldr splitNlStep ([], [])

/-- Embeds the body of the `'data'` handler (proc.ts lines 108-123): the
chunk is split on `'\n'`, every fragment has one trailing `'\r'` stripped,
all completed lines are delivered (the first merged with the pending
line accumulator), and the trailing fragment becomes the new accumulator.
Returns (delivered lines, new accumulator). -/
def onData (acc chunk : List Char) : List (List Char) × List Char :=
  match (splitNl chunk).1.map stripCR, stripCR (splitNl chunk).2 with
  | [], t => ([], acc ++ t)
  | f :: fs, t => ((acc ++ f) :: fs, t)

/-- Feeds a sequence of data chunks through the handler, starting from the
given line accumulator; returns all delivered lines and the final
accumulator (which the `'close'` handler would flush if non-empty). -/
def feedChunks (acc : List Char) : List (List Char) → List (List Char) × List Char
  | [] => ([], acc)
  | c :: cs =>
    ((onData acc c).1 ++ (feedChunks (onData acc c).2 cs).1,
     (feedChunks (onData acc c).2 cs).2)

/-- Feeds chunks from the initial (empty) accumulator. -/
def runChunks (cs : List (List Char)) : List (List Char) × List Char :=
  feedChunks [] cs

/-- Follows the spec's words: the lines of a newline-terminated text are
the fragments between the newlines, each with the carriage return
immediately preceding its newline stripped. -/
def specLines (s : List Char) : List (List Char) :=
  (splitNl s).1.map stripCR

/-! ## TargetListParser (src/src/proc.ts, lines 282-309) -/

/-- Shorthand: the characters of a string literal. -/
def chrs (s : String) : List Char := s.toList

/-- Embeds `line.indexOf(': ')`: the index of the first occurrence of the
two-character sequence `": "`, or `none` when absent. -/
def idxColonSpace : List Char → Option Nat
  | ':' :: ' ' :: _ => some 0
  | _ :: rest => (idxColonSpace rest).map (· + 1)
  | [] => none

/-- Embeds `haystack.includes(needle)`: substring containment. -/
def hasSub (needle : List Char) : List Char → Bool
  | [] => needle.isEmpty
  | c :: rest => needle.isPrefixOf (c :: rest) || hasSub needle rest

/-- Embeds `TargetListParser.output` (proc.ts lines 288-307): one parsed
line appended to the accumulated target-name list. The `error` handler
forwards to the same function. -/
def tlpOutput (generator : List Char) (names : List (List Char)) (line : List Char) :
    List (List Char) :=
  if (chrs "Makefiles").isSuffixOf generator then
    if (chrs "...").isPrefixOf line then
      let tn := line.drop 4
      let tn2 := if tn.contains ' ' then tn.takeWhile (· != ' ') else tn
      names ++ [tn2]
    else names
  else
    match idxColonSpace line with
    | none => names
    | some colpos =>
      if hasSub (chrs "All primary targets") line then names
      else names ++ [line.take colpos]

/-- Feeds a sequence of output lines to a `TargetListParser` built for the
given generator and returns the accumulated `targetNames`. -/
def tlpRun (generator : List Char) (lines : List (List Char)) : List (List Char) :=
  lines.foldl (tlpOutput generator) []

/-- Follows the spec's words for the Makefile grammar: the target name is
every character after the 4th column, truncated at the first space. -/
def specMakefileTargetName (line : List Char) : List Char :=
  (line.drop 4).takeWhile (· != ' ')

/-! ## LegacyCMakeDriver state and operations (src/src/proc.ts, lines 314-487) -/

/-- The `{type, value}` pair a configure-time setting contributes to its
`-D` definition. `util.cmakeify` is not under src/; the spec only says a
setting yields a type token and a value token, so settings carry them. -/
structure CMakeValue where
  type : List Char
  value : List Char
deriving DecidableEq

/-- One configure-time key/value setting (`ConfigureArguments`). -/
structure ConfigureArgument where
  key : List Char
  value : CMakeValue
deriving DecidableEq

/-- A toolchain descriptor. The legacy driver's `configure` only branches
on the `compilerKit` discriminator (proc.ts lines 389-395); every other
kind of kit contributes no extra arguments. -/
inductive Kit
  | compilerKit (name : List Char) (compilers : List (List Char × List Char))
  | otherKit (name : List Char)
deriving DecidableEq

/-- `BUILD_SHARED_LIBS` link mode. -/
inductive Linkage
  | static
  | shared
deriving DecidableEq

/-- The mutable fields of a `LegacyCMakeDriver` instance, with their
initial values (proc.ts lines 317, 334, 339, 344, 485). -/
structure DriverState where
  needsReconfigure : Bool := true
  buildType : List Char := chrs "Debug"
  configArgs : List ConfigureArgument := []
  linkage : Linkage := .static
  kit : Option Kit := none
  targets : List (List Char) := []
deriving DecidableEq

/-- The driver state as constructed. -/
def initDriver : DriverState := {}

/-- Embeds `setKit` (proc.ts lines 320-329). `needClean` is the result of
the `_kitChangeNeedsClean` policy and `rmdirOk` whether the
binary-directory removal succeeds (both live outside src/). The flag is
raised first; a failing removal propagates, so the kit is not adopted and
the returned success bit is false. -/
def setKit (needClean rmdirOk : Bool) (k : Kit) (st : DriverState) :
    DriverState × Bool :=
  let st1 := { st with needsReconfigure := true }
  if needClean && !rmdirOk then (st1, false)
  else ({ st1 with kit := some k }, true)

/-- `VariantConfigurationOptions`: each field may be absent; an absent
field is JavaScript `undefined` and the empty build-type string is falsy
just like `undefined` is. -/
structure VariantOpts where
  buildType : Option (List Char) := none
  settings : Option (List ConfigureArgument) := none
  linkage : Option Linkage := none

/-- Embeds `setVariantOptions` (proc.ts lines 346-351): each field is
merged with `||`, so a falsy (`undefined` or empty-string) input keeps
the previously held value. A present settings array always replaces the
old one, because an array is truthy even when empty. -/
def setVariantOptions (opts : VariantOpts) (st : DriverState) : DriverState :=
  { st with
    buildType :=
      match opts.buildType with
      | some s => if s.isEmpty then st.buildType else s
      | none => st.buildType
    configArgs :=
      match opts.settings with
      | some l => l
      | none => st.configArgs
    linkage :=
      match opts.linkage with
      | some l => l
      | none => st.linkage }

/-- Embeds the state effect of `configure` (proc.ts lines 356-412).
`beforeOk` is the `_beforeConfigure` hook's verdict, `retc` the external
tool's exit code and `tgts` the result of the target re-discovery that
runs after the invocation. Returns the new state and the returned code. -/
def configureStep (beforeOk : Bool) (retc : Int) (tgts : List (List Char))
    (st : DriverState) : DriverState × Int :=
  if !beforeOk then (st, -1)
  else
    let st1 := if retc = 0 then { st with needsReconfigure := false } else st
    ({ st1 with targets := tgts }, retc)

/-- Embeds the state effect of `build` (proc.ts lines 429-456): an
aborted pre-build hook returns `null` (`false` here) and leaves the state
alone; otherwise targets are re-discovered. -/
def buildStep (beforeOk : Bool) (tgts : List (List Char)) (st : DriverState) :
    DriverState × Bool :=
  if !beforeOk then (st, false) else ({ st with targets := tgts }, true)

/-- One public driver operation together with the environment outcomes it
observes (hook verdicts, removal success, exit code, discovered targets). -/
inductive DriverOp
  | opSetKit (needClean rmdirOk : Bool) (k : Kit)
  | opSetVariant (opts : VariantOpts)
  | opConfigure (beforeOk : Bool) (retc : Int) (tgts : List (List Char))
  | opBuild (beforeOk : Bool) (tgts : List (List Char))

/-- The driver state machine: the state reached after one operation. -/
def stepOp (st : DriverState) : DriverOp → DriverState
  | .opSetKit nc ok k => (setKit nc ok k st).1
  | .opSetVariant o => setVariantOptions o st
  | .opConfigure b r t => (configureStep b r t st).1
  | .opBuild b t => (buildStep b t st).1

/-! ## configure/build argument assembly (src/src/proc.ts, lines 364-450) -/

/-- Embeds proc.ts line 376: the argument pushed for one configured
setting, `` `${setting.key}:${cmake_value.type}=${cmake_value.value}` ``. -/
def settingArg (s : ConfigureArgument) : List Char :=
  s.key ++ chrs ":" ++ s.value.type ++ chrs "=" ++ s.value.value

/-- Embeds proc.ts lines 389-395: a compiler kit contributes one
`-DCMAKE_<lang>_COMPILER:FILEPATH=<path>` definition per language. -/
def kitArgs : Kit → List (List Char)
  | .compilerKit _ comps =>
      comps.map (fun p => chrs "-DCMAKE_" ++ p.1 ++ chrs "_COMPILER:FILEPATH=" ++ p.2)
  | .otherKit _ => []

/-- Modelled from the spec: `util.normalizePath` is not under src/ and no
claim depends on it, so it is the identity on paths. -/
def normalizePath (p : List Char) : List Char := p

/-- Embeds the argument assembly of `configure` (proc.ts lines 364-401):
generator selection when no cache exists, one argument per setting, the
build-type definition, compiler-kit definitions, extra flags and the
source/binary directory selectors. `cmakeFlags` stands for the base
class's `_cmakeFlags()`, which is not under src/. -/
def configureArgs (cacheFileExists : Bool) (st : DriverState) (k : Kit)
    (cmakeFlags : List (List Char)) (sourceDir binaryDir : List Char) :
    List (List Char) :=
  (if !cacheFileExists then [chrs "-GNinja"] else []) ++
  st.configArgs.map settingArg ++
  [chrs "-DCMAKE_BUILD_TYPE:STRING=" ++ st.buildType] ++
  kitArgs k ++ cmakeFlags ++
  [chrs "-H" ++ normalizePath sourceDir] ++
  [chrs "-B" ++ normalizePath binaryDir]

/-- Embeds the generator test `/(Unix|MinGW) Makefiles|Ninja/.test(gen)`
(proc.ts line 438): the name contains `Unix Makefiles`, `MinGW Makefiles`
or `Ninja`. -/
def testMakeNinjaGen (g : List Char) : Bool :=
  hasSub (chrs "Unix Makefiles") g || hasSub (chrs "MinGW Makefiles") g ||
    hasSub (chrs "Ninja") g

/-- The IDE-generator full-path-diagnostics flags (proc.ts lines 441-444). -/
def vsFlags : List (List Char) :=
  [chrs "/m", chrs "/property:GenerateFullPaths=true"]

/-- Embeds the generator-specific extra build arguments (proc.ts lines
435-447): `none` for an undetected generator. -/
def generatorBuildArgs (gen : Option (List Char)) (target numJobs : List Char) :
    List (List Char) :=
  match gen with
  | none => []
  | some g =>
    if testMakeNinjaGen g && !(target == chrs "clean") then [chrs "-j", numJobs]
    else if hasSub (chrs "Visual Studio") g then vsFlags
    else []

/-- Embeds the full `build` argument list (proc.ts lines 448-450). -/
def buildArgs (gen : Option (List Char)) (binaryDir buildType target numJobs : List Char) :
    List (List Char) :=
  [chrs "--build", binaryDir, chrs "--config", buildType,
   chrs "--target", target, chrs "--"] ++ generatorBuildArgs gen target numJobs

/-! ## CMakeCache (src/unnamed/part_001) -/

/-- The fixed set of cache entry types (part_001 lines 152-160). -/
inductive CacheEntryType
  | typeBool
  | typeString
  | typePath
  | typeFilePath
  | typeInternal
  | typeUninitialized
  | typeStatic
deriving DecidableEq

/-- A cache entry value: boolean-converted when the type is `BOOL`,
otherwise the raw string (part_001 lines 49-53). -/
inductive EntryValue
  | boolV (b : Bool)
  | strV (s : List Char)
deriving DecidableEq

/-- Modelled from the spec: `util.isTruthy` is not under src/; the spec
says the `BOOL` value is "derived from a truthiness parse of the raw
string", with `ON` truthy and `OFF` falsy. A value is truthy unless it is
one of the conventional false tokens or ends in `-NOTFOUND`. -/
def isTruthy (s : List Char) : Bool :=
  let up := s.map Char.toUpper
  !(up == [] || up == chrs "FALSE" || up == chrs "OFF" || up == chrs "0" ||
    up == chrs "NO" || up == chrs "N" || up == chrs "IGNORE" ||
    up == chrs "NOTFOUND" || (chrs "-NOTFOUND").isSuffixOf up)

/-- A cache entry (part_001 lines 18-57). -/
structure Entry where
  key : List Char
  etype : CacheEntryType
  value : EntryValue
  helpString : List Char
  advanced : Bool
deriving DecidableEq

/-- The `Entry` constructor (part_001 lines 46-56). -/
def mkEntry (key rawValue : List Char) (t : CacheEntryType) (docs : List Char) :
    Entry :=
  { key := key
    etype := t
    value := if t = .typeBool then .boolV (isTruthy rawValue) else .strV rawValue
    helpString := docs
    advanced := false }

/-- JavaScript `\s` for the characters that can occur on one cache line. -/
def wsChar (c : Char) : Bool :=
  c = ' ' || c = '\t' || c = '\x0b' || c = '\x0c' || c = '\r' || c = '\n'

/-- One step of splitting on `/\r\n|\n|\r/` (part_001 line 130). -/
def splitAnyNlAux : List Char → List (List Char) × List Char
  | [] => ([], [])
  | '\r' :: '\n' :: rest =>
    ([] :: (splitAnyNlAux rest).1, (splitAnyNlAux rest).2)
  | '\n' :: rest =>
    ([] :: (splitAnyNlAux rest).1, (splitAnyNlAux rest).2)
  | '\r' :: rest =>
    ([] :: (splitAnyNlAux rest).1, (splitAnyNlAux rest).2)
  | c :: rest =>
    match (splitAnyNlAux rest).1 with
    | [] => ([], c :: (splitAnyNlAux rest).2)
    | f :: fs => ((c :: f) :: fs, (splitAnyNlAux rest).2)

/-- `content.split(/\r\n|\n|\r/)`: every line, the trailing one included. -/
def splitAnyNl (content : List Char) : List (List Char) :=
  (splitAnyNlAux content).1 ++ [(splitAnyNlAux content).2]

/-- Embeds `/^\s*#/.test(line)`. -/
def isHashComment (line : List Char) : Bool :=
  match line.dropWhile wsChar with
  | '#' :: _ => true
  | _ => false

/-- The significant lines of a cache file: split on any newline
convention, empty lines and `#`-comments dropped (part_001 line 130). -/
def cacheLines (content : List Char) : List (List Char) :=
  (splitAnyNl content).filter (fun l => !l.isEmpty && !isHashComment l)

/-- Splits at the first occurrence of `c`, when there is one. -/
def splitFirst (c : Char) : List Char → Option (List Char × List Char)
  | [] => none
  | x :: rest =>
    if x = c then some ([], rest)
    else (splitFirst c rest).map (fun p => (x :: p.1, p.2))

/-- Embeds the lazy pattern `/^(.*?):(.*?)=(.*)/` (part_001 line 138):
the name runs to the first `:`, the type token to the first `=` after it,
the value is the rest. There is a match exactly when some `:` is followed
somewhere later by an `=`. -/
def matchEntryLine (line : List Char) :
    Option (List Char × List Char × List Char) :=
  (splitFirst ':' line).bind fun p =>
    (splitFirst '=' p.2).map fun q => (p.1, q.1, q.2)

/-- The fixed type-token lookup (part_001 lines 152-160). -/
def typemap (t : List Char) : Option CacheEntryType :=
  if t = chrs "BOOL" then some .typeBool
  else if t = chrs "STRING" then some .typeString
  else if t = chrs "PATH" then some .typePath
  else if t = chrs "FILEPATH" then some .typeFilePath
  else if t = chrs "INTERNAL" then some .typeInternal
  else if t = chrs "UNINITIALIZED" then some .typeUninitialized
  else if t = chrs "STATIC" then some .typeStatic
  else none

/-- JavaScript `String.trim` on the docstring accumulator. -/
def trimWs (l : List Char) : List Char :=
  ((l.dropWhile wsChar).reverse.dropWhile wsChar).reverse

/-- `entries.set name e`: replace in place, or append when absent. -/
def setEntry (m : List (List Char × Entry)) (k : List Char) (e : Entry) :
    List (List Char × Entry) :=
  match m with
  | [] => [(k, e)]
  | (k', e') :: rest =>
    if k' = k then (k, e) :: rest else (k', e') :: setEntry rest k e

/-- A recoverable parse report sent to the error-collection collaborator
(`rollbar.error`, part_001 lines 140 and 165). -/
inductive ParseErr
  | badLine (line : List Char)
  | unknownType (name tname : List Char)
deriving DecidableEq

/-- The loop state of `parseCache`: the entry map plus the documentation
accumulator `docs_acc`. -/
structure ParseState where
  entries : List (List Char × Entry)
  docsAcc : List Char
deriving DecidableEq

/-- Embeds one iteration of the `parseCache` loop (part_001 lines
134-171), returning the new state and the reports it emitted. -/
def processLine (st : ParseState) (line : List Char) : ParseState × List ParseErr :=
  if (chrs "//").isPrefixOf line then
    ({ st with docsAcc := st.docsAcc ++ line.drop 2 ++ [' '] }, [])
  else
    match matchEntryLine line with
    | none => (st, [.badLine line])
    | some (name, tname, valuestr) =>
      if name.isEmpty || tname.isEmpty then (st, [])
      else if (chrs "-ADVANCED").isSuffixOf name && valuestr == chrs "1" then
        (st, [])
      else
        let docs := trimWs st.docsAcc
        let st1 := { st with docsAcc := [] }
        match typemap tname with
        | none => (st1, [.unknownType name tname])
        | some t =>
          ({ st1 with entries := setEntry st1.entries name (mkEntry name valuestr t docs) }, [])

/-- Runs the `parseCache` loop over a list of lines. -/
def runLines (st : ParseState) : List (List Char) → ParseState × List ParseErr
  | [] => (st, [])
  | l :: ls =>
    ((runLines (processLine st l).1 ls).1,
     (processLine st l).2 ++ (runLines (processLine st l).1 ls).2)

/-- Embeds `CMakeCache.parseCache` (part_001 lines 128-176): the entry
map and the recoverable reports, over the filtered lines. -/
def parseCache (content : List Char) : ParseState × List ParseErr :=
  runLines { entries := [], docsAcc := [] } (cacheLines content)

/-- The immutable cache store view (`CMakeCache`, part_001 lines 62-121). -/
structure CMakeCacheModel where
  path : List Char
  existsFlag : Bool
  entries : List (List Char × Entry)
deriving DecidableEq

/-- Embeds `CMakeCache.fromPath` (part_001 lines 72-86) over an explicit
filesystem map `fsys` from paths to file contents: a present file is read
and parsed, an absent one yields the empty `exists=false` store. -/
def fromPath (fsys : List Char → Option (List Char)) (p : List Char) :
    CMakeCacheModel :=
  match fsys p with
  | some content => { path := p, existsFlag := true, entries := (parseCache content).1.entries }
  | none => { path := p, existsFlag := false, entries := [] }

theorem stripCR_append (a : List Char) :
    ∀ x : List Char, x ≠ [] → stripCR (a ++ x) = a ++ stripCR x := by
  induction a with
  | nil => intro x _; simp
  | cons c a ih =>
    intro x hx
    have hax : a ++ x ≠ [] := by
      cases a <;> simp_all
    cases h : a ++ x with
    | nil => exact absurd h hax
    | cons d rest =>
      show stripCR (c :: (a ++ x)) = _
      rw [h, stripCR]
      rw [← h, ih x hx]
      rfl

theorem stripCR_fix_iff (l : List Char) :
    stripCR l = l ↔ l.getLast? ≠ some '\r' := by
  induction l with
  | nil => simp [stripCR]
  | cons c rest ih =>
    cases rest with
    | nil =>
      by_cases h : c = '\r' <;> simp [stripCR, h]
    | cons d rest' =>
      rw [stripCR]
      constructor
      · intro h
        have : stripCR (d :: rest') = d :: rest' := by
          exact List.cons_injective h
        rw [List.getLast?_cons_cons]
        exact ih.mp this
      · intro h
        rw [List.getLast?_cons_cons] at h
        rw [ih.mpr h]

theorem stripCR_append_fix (a b : List Char) (ha : stripCR a = a) :
    stripCR (a ++ b) = a ++ stripCR b := by
  cases b with
  | nil => simpa [stripCR] using ha
  | cons x xs => exact stripCR_append a (x :: xs) (by simp)

/-- The trailing fragment with empty completed list is the whole input. -/
theorem splitNl_fst_nil (l : List Char) :
    (splitNl l).1 = [] → (splitNl l).2 = l := by
  induction l with
  | nil => intro _; rfl
  | cons c rest ih =>
    intro h
    rw [splitNl, List.foldr_cons] at h ⊢
    rw [show List.foldr splitNlStep ([], []) rest = splitNl rest from rfl] at h ⊢
    rw [splitNlStep] at h ⊢
    by_cases hc : c = '\n'
    · simp [hc] at h
    · simp only [hc, if_false] at h ⊢
      cases hr : (splitNl rest).1 with
      | nil => simp [hr, ih hr]
      | cons f fs => simp [hr] at h

/-- A nonempty trailing fragment ends with the same character as the input. -/
theorem splitNl_snd_getLast (l : List Char) :
    (splitNl l).2 ≠ [] → (splitNl l).2.getLast? = l.getLast? := by
  induction l with
  | nil => intro h; simp [splitNl] at h
  | cons c rest ih =>
    intro h
    rw [splitNl, List.foldr_cons,
        show List.foldr splitNlStep ([], []) rest = splitNl rest from rfl,
        splitNlStep] at h ⊢
    by_cases hc : c = '\n'
    · simp only [hc, if_true] at h ⊢
      have hrest : rest ≠ [] := by
        intro hr
        rw [hr] at h
        simp [splitNl] at h
      obtain ⟨d, t, rfl⟩ := List.exists_cons_of_ne_nil hrest
      rw [List.getLast?_cons_cons]
      exact ih h
    · simp only [hc, if_false] at h ⊢
      cases hr : (splitNl rest).1 with
      | nil =>
        have := splitNl_fst_nil rest hr
        simp only [hr] at h ⊢
        simp [this]
      | cons f fs =>
        simp only [hr] at h ⊢
        have hrest : rest ≠ [] := by
          intro hre
          rw [hre] at hr
          simp [splitNl] at hr
        obtain ⟨d, t, rfl⟩ := List.exists_cons_of_ne_nil hrest
        rw [List.getLast?_cons_cons]
        exact ih h

/-- If the raw input has no trailing carriage return, neither does the
trailing fragment of its newline split. -/
theorem splitNl_snd_fix (l : List Char) (h : stripCR l = l) :
    stripCR (splitNl l).2 = (splitNl l).2 := by
  cases ht : (splitNl l).2 with
  | nil => rfl
  | cons x xs =>
    rw [← ht]
    rw [stripCR_fix_iff]
    rw [splitNl_snd_getLast l (by rw [ht]; simp)]
    exact (stripCR_fix_iff l).mp h

/-- Splitting a concatenation: the completed fragments of `a` survive, the
trailing fragment of `a` merges with the first fragment of `b`. -/
theorem splitNl_append (a b : List Char) :
    splitNl (a ++ b) =
      match (splitNl b).1 with
      | [] => ((splitNl a).1, (splitNl a).2 ++ (splitNl b).2)
      | f :: fs => ((splitNl a).1 ++ ((splitNl a).2 ++ f) :: fs, (splitNl b).2) := by
  induction a with
  | nil =>
    cases hb : (splitNl b).1 with
    | nil =>
      simp only [hb]
      show splitNl b = ([], [] ++ (splitNl b).2)
      rw [List.nil_append, ← hb]
    | cons f fs =>
      simp only [hb]
      show splitNl b = ([] ++ ([] ++ f) :: fs, (splitNl b).2)
      rw [List.nil_append, List.nil_append, ← hb]
  | cons c a ih =>
    show splitNl (c :: (a ++ b)) = _
    rw [splitNl, List.foldr_cons,
        show List.foldr splitNlStep ([], []) (a ++ b) = splitNl (a ++ b) from rfl,
        ih]
    rw [show splitNl (c :: a) = splitNlStep c (splitNl a) from rfl]
    cases hb : (splitNl b).1 with
    | nil =>
      simp only [splitNlStep]
      by_cases hc : c = '\n'
      · simp [hc]
      · simp only [hc, if_false]
        cases ha : (splitNl a).1 with
        | nil => simp
        | cons g gs => simp
    | cons f fs =>
      simp only [splitNlStep]
      by_cases hc : c = '\n'
      · simp [hc]
      · simp only [hc, if_false]
        cases ha : (splitNl a).1 with
        | nil => simp
        | cons g gs => simp

/-- Composition: feeding two chunks one after the other is the same as
feeding their concatenation, provided the first chunk does not end in a
carriage return (a chunk-final `'\r'` would otherwise be stripped by the
handler even when it is not attached to a newline). -/
theorem onData_comp (c₁ c₂ acc : List Char) (h : stripCR c₁ = c₁) :
    ((onData acc c₁).1 ++ (onData (onData acc c₁).2 c₂).1,
     (onData (onData acc c₁).2 c₂).2) = onData acc (c₁ ++ c₂) := by
  have hfix : stripCR (splitNl c₁).2 = (splitNl c₁).2 := splitNl_snd_fix c₁ h
  rw [onData, onData, onData]
  rw [splitNl_append c₁ c₂]
  cases hb : (splitNl c₂).1 with
  | nil =>
    simp only
    cases ha : (splitNl c₁).1 with
    | nil =>
      simp only [List.map_nil, hfix]
      rw [stripCR_append_fix _ _ hfix]
      simp
    | cons g gs =>
      simp only [List.map_cons, hfix]
      rw [stripCR_append_fix _ _ hfix]
      simp
  | cons f fs =>
    simp only
    cases ha : (splitNl c₁).1 with
    | nil =>
      simp only [List.map_nil, List.map_cons, List.nil_append, hfix]
      rw [stripCR_append_fix _ _ hfix]
      simp
    | cons g gs =>
      simp only [List.map_cons, List.map_append, hfix]
      rw [stripCR_append_fix _ _ hfix]
      simp

/-- Feeding chunks that never end in a bare carriage return is the same as
feeding their concatenation in one piece. -/
theorem feedChunks_join (cs : List (List Char))
    (hfix : ∀ c ∈ cs, stripCR c = c) :
    ∀ acc, feedChunks acc cs = onData acc cs.flatten := by
  induction cs with
  | nil =>
    intro acc
    show ([], acc) = onData acc [].flatten
    simp [onData, splitNl, stripCR]
  | cons c cs ih =>
    intro acc
    have hc : stripCR c = c := hfix c (by simp)
    have hcs : ∀ x ∈ cs, stripCR x = x := fun x hx => hfix x (by simp [hx])
    rw [feedChunks]
    rw [ih hcs (onData acc c).2]
    rw [List.flatten_cons, ← onData_comp c cs.flatten acc hc]

/-- A newline-terminated text has an empty trailing fragment. -/
theorem splitNl_snd_nil_of_nl :
    ∀ s : List Char, s.getLast? = some '\n' → (splitNl s).2 = [] := by
  intro s
  induction s with
  | nil => intro h; simp at h
  | cons c rest ih =>
    intro h
    rw [show splitNl (c :: rest) = splitNlStep c (splitNl rest) from rfl, splitNlStep]
    cases rest with
    | nil =>
      simp at h
      simp [h, splitNl]
    | cons d t =>
      rw [List.getLast?_cons_cons] at h
      have htr := ih h
      by_cases hc : c = '\n'
      · simp [hc, htr]
      · simp only [hc, if_false]
        cases hr : (splitNl (d :: t)).1 with
        | nil =>
          exfalso
          have hfull := splitNl_fst_nil _ hr
          rw [hfull] at htr
          exact absurd htr (by simp)
        | cons f fs => simp [hr, htr]

/-- Handler output for a whole newline-terminated text fed in one piece,
from the empty accumulator: exactly the spec's lines, empty new buffer. -/
theorem onData_nil_acc (s : List Char) (ht : (splitNl s).2 = []) :
    onData [] s = (specLines s, []) := by
  rw [onData, ht]
  cases hl : (splitNl s).1.map stripCR with
  | nil => simp [specLines, hl, stripCR]
  | cons f fs => simp [specLines, hl, stripCR]

/-- A list without the given character is untouched by truncation at it. -/
theorem takeWhile_ne_of_not_contains (a : Char) :
    ∀ l : List Char, l.contains a = false → l.takeWhile (· != a) = l := by
  intro l
  induction l with
  | nil => intro _; rfl
  | cons x xs ih =>
    intro h
    simp only [List.contains_cons, Bool.or_eq_false_iff] at h
    have hx : (x != a) = true := by
      simp only [bne_iff_ne, ne_eq]
      intro hxa
      rw [hxa] at h
      simp at h
    rw [List.takeWhile_cons, hx]
    simp [ih h.2]

/-- Errors already collected never influence later parsing: running the
cache loop over an appended list processes the pieces in sequence. -/
theorem runLines_append (a b : List (List Char)) :
    ∀ st, (runLines st (a ++ b)).1 = (runLines (runLines st a).1 b).1 := by
  induction a with
  | nil => intro st; rfl
  | cons l ls ih =>
    intro st
    rw [List.cons_append, runLines, runLines]
    exact ih (processLine st l).1

/-! ## Claim theorems -/

/-- C1 (counterexample to the claim as stated): the chunks `"a\r"`,
`"b\n"` concatenate to the single newline-terminated line `"a\rb"`, whose
carriage return does not immediately precede the newline; yet the handler
reports the line as `"ab"`, because it strips a `'\r'` from the end of
every chunk fragment, chunk-final mid-line fragments included. -/
theorem c1_counterexample :
    ([chrs "a\r", chrs "b\n"] : List (List Char)).flatten.getLast? = some '\n' ∧
    (runChunks [chrs "a\r", chrs "b\n"]).1 ≠
      specLines ([chrs "a\r", chrs "b\n"] : List (List Char)).flatten ∧
    (runChunks [chrs "a\r", chrs "b\n"]).1 = [chrs "ab"] ∧
    specLines ([chrs "a\r", chrs "b\n"] : List (List Char)).flatten = [chrs "a\rb"] := by
  refine ⟨by decide, by decide, by decide, by decide⟩

/-- C1 (amended): for every sequence of chunks, none of which ends in a
carriage return, whose concatenation forms newline-terminated lines,
feeding the chunks to the stdout handler in that chunk-boundary split
(splits mid-line included) delivers exactly the lines of the
concatenation, each with only the carriage return immediately preceding
its newline stripped, each line exactly once; the line buffer is empty
afterwards, so the close-time flush adds no further call. -/
theorem c1_chunked_line_delivery (chunks : List (List Char))
    (hfix : ∀ c ∈ chunks, stripCR c = c)
    (hnl : chunks.flatten.getLast? = some '\n') :
    runChunks chunks = (specLines chunks.flatten, []) := by
  rw [runChunks, feedChunks_join chunks hfix [],
      onData_nil_acc _ (splitNl_snd_nil_of_nl _ hnl)]

/-- C1 witness: three chunks splitting two lines mid-line. -/
theorem c1_chunked_line_delivery_witness :
    runChunks [chrs "a", chrs "b\r\nc", chrs "\n"] =
      (specLines ([chrs "a", chrs "b\r\nc", chrs "\n"] : List (List Char)).flatten, []) ∧
    specLines ([chrs "a", chrs "b\r\nc", chrs "\n"] : List (List Char)).flatten =
      [chrs "ab", chrs "c"] :=
  ⟨c1_chunked_line_delivery [chrs "a", chrs "b\r\nc", chrs "\n"] (by decide) (by decide),
   by decide⟩

/-- C2: the claim says `configure` passes `-D<key>:<type>=<value>` for
every configured setting. The code (proc.ts line 376) pushes the argument
without the `-D` prefix — unlike the build-type and compiler-path
definitions right next to it (lines 379 and 393), which do carry `-D`.
Evaluated at a driver holding the single setting `FOO = BAR : STRING`:
the produced list contains the bare `FOO:STRING=BAR` and not
`-DFOO:STRING=BAR`, while the build-type definition is present. -/
theorem c2_setting_arg_lacks_d_prefix :
    chrs "FOO:STRING=BAR" ∈
      configureArgs true
        { initDriver with configArgs := [⟨chrs "FOO", ⟨chrs "STRING", chrs "BAR"⟩⟩] }
        (.otherKit (chrs "kit")) [] (chrs "src") (chrs "bin") ∧
    chrs "-DFOO:STRING=BAR" ∉
      configureArgs true
        { initDriver with configArgs := [⟨chrs "FOO", ⟨chrs "STRING", chrs "BAR"⟩⟩] }
        (.otherKit (chrs "kit")) [] (chrs "src") (chrs "bin") ∧
    chrs "-DCMAKE_BUILD_TYPE:STRING=Debug" ∈
      configureArgs true
        { initDriver with configArgs := [⟨chrs "FOO", ⟨chrs "STRING", chrs "BAR"⟩⟩] }
        (.otherKit (chrs "kit")) [] (chrs "src") (chrs "bin") := by
  refine ⟨by decide, by decide, by decide⟩

/-- C3 (counterexample to the claim as stated): `Ninja` passes the
Makefile-or-Ninja generator test, yet for the target `clean` the build
argument list gets no parallelism flag at all — the code adds `-j` only
when the target differs from `clean`. -/
theorem c3_counterexample :
    testMakeNinjaGen (chrs "Ninja") = true ∧
    generatorBuildArgs (some (chrs "Ninja")) (chrs "clean") (chrs "4") = [] ∧
    chrs "-j" ∉ buildArgs (some (chrs "Ninja")) (chrs "bin") (chrs "Debug")
      (chrs "clean") (chrs "4") := by
  refine ⟨by decide, by decide, by decide⟩

/-- C3 (amended): a generator matching `Unix Makefiles`, `MinGW
Makefiles` or `Ninja` receives the parallelism flag `-j <numJobs>` for
every target other than `clean`, and no extra flags for `clean` (unless
the name also mentions Visual Studio); a generator containing
`Visual Studio` (and failing the Makefile/Ninja test) receives the
full-path-diagnostics flags; any other generator, or an undetected one,
receives no extra flags. -/
theorem c3_generator_flags (g target numJobs : List Char) :
    (testMakeNinjaGen g = true → ¬target = chrs "clean" →
      generatorBuildArgs (some g) target numJobs = [chrs "-j", numJobs]) ∧
    (testMakeNinjaGen g = true → target = chrs "clean" →
      hasSub (chrs "Visual Studio") g = false →
      generatorBuildArgs (some g) target numJobs = []) ∧
    (testMakeNinjaGen g = false → hasSub (chrs "Visual Studio") g = true →
      generatorBuildArgs (some g) target numJobs = vsFlags) ∧
    (testMakeNinjaGen g = false → hasSub (chrs "Visual Studio") g = false →
      generatorBuildArgs (some g) target numJobs = []) ∧
    generatorBuildArgs none target numJobs = [] := by
  refine ⟨?_, ?_, ?_, ?_, rfl⟩
  · intro h1 h2
    simp [generatorBuildArgs, h1, h2]
  · intro h1 h2 h3
    simp [generatorBuildArgs, h1, h2, h3]
  · intro h1 h2
    simp [generatorBuildArgs, h1, h2]
  · intro h1 h2
    simp [generatorBuildArgs, h1, h2]

/-- C3 witness: each amended case at a concrete generator and target. -/
theorem c3_generator_flags_witness :
    generatorBuildArgs (some (chrs "Ninja")) (chrs "all") (chrs "4") =
      [chrs "-j", chrs "4"] ∧
    generatorBuildArgs (some (chrs "Ninja")) (chrs "clean") (chrs "4") = [] ∧
    generatorBuildArgs (some (chrs "Visual Studio 15 2017")) (chrs "all") (chrs "4") =
      vsFlags ∧
    generatorBuildArgs (some (chrs "Xcode")) (chrs "all") (chrs "4") = [] :=
  ⟨(c3_generator_flags (chrs "Ninja") (chrs "all") (chrs "4")).1
      (by decide) (by decide),
   (c3_generator_flags (chrs "Ninja") (chrs "clean") (chrs "4")).2.1
      (by decide) (by decide) (by decide),
   (c3_generator_flags (chrs "Visual Studio 15 2017") (chrs "all") (chrs "4")).2.2.1
      (by decide) (by decide),
   (c3_generator_flags (chrs "Xcode") (chrs "all") (chrs "4")).2.2.2.1
      (by decide) (by decide)⟩

/-- C4 (counterexample to the claim as stated): on the spec's own sample
lines — note the double space in `"...  all"` and `"...  my_target"` —
the Makefile grammar takes everything after the 4th column, here starting
with a space, and truncates at the first space, so those two lines yield
the empty target name, not `all` and `my_target`. -/
theorem c4_counterexample :
    tlpRun (chrs "Unix Makefiles")
        [chrs "...  all", chrs "... clean", chrs "...  my_target"] ≠
      [chrs "all", chrs "clean", chrs "my_target"] ∧
    tlpRun (chrs "Unix Makefiles")
        [chrs "...  all", chrs "... clean", chrs "...  my_target"] =
      [[], chrs "clean", []] := by
  refine ⟨by decide, by decide⟩

/-- C4 (amended): for a Makefile-family generator, the lines
`"... all"`, `"... clean"`, `"... my_target"` (one space after the dots)
yield exactly `["all", "clean", "my_target"]` in that order; in general a
line is significant only if it starts with `...`, and a significant line
contributes the characters after the 4th column truncated at the first
space (so a second space after the dots makes the name empty). -/
theorem c4_makefile_target_parsing :
    tlpRun (chrs "Unix Makefiles")
        [chrs "... all", chrs "... clean", chrs "... my_target"] =
      [chrs "all", chrs "clean", chrs "my_target"] ∧
    (∀ g names line, (chrs "Makefiles").isSuffixOf g = true →
      (chrs "...").isPrefixOf line = true →
      tlpOutput g names line = names ++ [specMakefileTargetName line]) ∧
    (∀ g names line, (chrs "Makefiles").isSuffixOf g = true →
      (chrs "...").isPrefixOf line = false →
      tlpOutput g names line = names) := by
  refine ⟨by decide, ?_, ?_⟩
  · intro g names line h1 h2
    simp only [tlpOutput, h1, h2, if_true, specMakefileTargetName]
    by_cases hsp : (line.drop 4).contains ' ' = true
    · rw [if_pos hsp]
    · rw [Bool.not_eq_true] at hsp
      rw [if_neg (by rw [hsp]; simp), takeWhile_ne_of_not_contains ' ' _ hsp]
  · intro g names line h1 h2
    simp only [tlpOutput, h1, h2, if_true]
    rw [if_neg (by simp [h2])]

/-- C4 witness: the general Makefile rule at concrete lines. -/
theorem c4_makefile_target_parsing_witness :
    tlpOutput (chrs "Unix Makefiles") [] (chrs "... my_target (phony)") =
      [] ++ [specMakefileTargetName (chrs "... my_target (phony)")] ∧
    specMakefileTargetName (chrs "... my_target (phony)") = chrs "my_target" ∧
    tlpOutput (chrs "Unix Makefiles") [] (chrs "no dots here") = [] :=
  ⟨(c4_makefile_target_parsing).2.1 (chrs "Unix Makefiles") []
      (chrs "... my_target (phony)") (by decide) (by decide),
   by decide,
   (c4_makefile_target_parsing).2.2 (chrs "Unix Makefiles") []
      (chrs "no dots here") (by decide) (by decide)⟩

/-- C5 (counterexample to the claim as stated): the claim says a
configure returning a non-zero exit code leaves `needsReconfigure`
"unchanged and set". Unchanged holds; "set" does not: after a successful
configure the flag is false, and a subsequent failing configure leaves it
false, not set. -/
theorem c5_counterexample :
    (stepOp (stepOp initDriver (.opConfigure true 0 []))
        (.opConfigure true 1 [])).needsReconfigure = false := by
  decide

/-- C5 (amended): `needsReconfigure` is true initially; every `setKit`
call leaves it true; it can become false only through a configure whose
pre-configure hook passed and whose exit code is 0; and a configure
returning any non-zero exit code (the `-1` pre-configure abort included)
leaves the flag unchanged — in particular still set whenever it was set. -/
theorem c5_needs_reconfigure_lifecycle :
    initDriver.needsReconfigure = true ∧
    (∀ (st : DriverState) (nc ok : Bool) (k : Kit),
      (stepOp st (.opSetKit nc ok k)).needsReconfigure = true) ∧
    (∀ (st : DriverState) (op : DriverOp),
      (stepOp st op).needsReconfigure = false →
      st.needsReconfigure = false ∨ ∃ r t, op = .opConfigure true r t ∧ r = 0) ∧
    (∀ (st : DriverState) (b : Bool) (r : Int) (t : List (List Char)),
      r ≠ 0 → ((configureStep b r t st).1).needsReconfigure = st.needsReconfigure) := by
  refine ⟨rfl, ?_, ?_, ?_⟩
  · intro st nc ok k
    rw [stepOp, setKit]
    split <;> rfl
  · intro st op h
    cases op with
    | opSetKit nc ok k =>
      rw [stepOp, setKit] at h
      split at h <;> simp at h
    | opSetVariant o =>
      left
      exact h
    | opConfigure b r t =>
      cases b with
      | false => left; exact h
      | true =>
        by_cases hr : r = 0
        · right; exact ⟨r, t, rfl, hr⟩
        · left
          simp only [stepOp] at h
          simp [configureStep, hr] at h
          exact h
    | opBuild b t =>
      cases b with
      | false => left; exact h
      | true => left; exact h
  · intro st b r t hr
    cases b with
    | false => rfl
    | true => simp [configureStep, hr]

/-- C5 witness: the three conditional clauses at concrete states. -/
theorem c5_needs_reconfigure_lifecycle_witness :
    (stepOp initDriver (.opSetKit true false (.otherKit (chrs "k")))).needsReconfigure
        = true ∧
    (({ initDriver with needsReconfigure := false } : DriverState).needsReconfigure
        = false ∨
      ∃ r t, DriverOp.opSetVariant {} = DriverOp.opConfigure true r t ∧ r = 0) ∧
    ((configureStep true 1 []
        ({ initDriver with needsReconfigure := false })).1).needsReconfigure =
      ({ initDriver with needsReconfigure := false } : DriverState).needsReconfigure :=
  ⟨c5_needs_reconfigure_lifecycle.2.1 initDriver true false (.otherKit (chrs "k")),
   c5_needs_reconfigure_lifecycle.2.2.1 { initDriver with needsReconfigure := false }
      (.opSetVariant {}) (by decide),
   c5_needs_reconfigure_lifecycle.2.2.2 { initDriver with needsReconfigure := false }
      true 1 [] (by decide)⟩

/-- C6 (counterexample to the claim as stated): the line `":BOOL=1"`
matches the lazy regex with an empty name, so it fails the claim's
`name:type=value` pattern (which requires a non-empty name); the claim
says such a line is reported to the error collector, but the parser skips
it silently — no report is emitted and no entry produced, while the
following well-formed line still parses. -/
theorem c6_counterexample :
    matchEntryLine (chrs ":BOOL=1") = some ([], chrs "BOOL", chrs "1") ∧
    parseCache (chrs ":BOOL=1\nGOOD:BOOL=ON") =
      ({ entries := [(chrs "GOOD", mkEntry (chrs "GOOD") (chrs "ON") .typeBool [])],
         docsAcc := [] }, []) := by
  refine ⟨by decide, by decide⟩

/-- C6 (amended): a surviving cache line with no `:`-then-`=` delimiters
at all is reported to the error collector and skipped with the state
untouched; a line that has the delimiters but an empty name or type token
is skipped silently, without a report; a line whose type token is not in
the fixed set is reported and produces no entry (its docstring is
consumed); and in every case parsing continues — removing such a
non-matching line does not change the entries parsed from the rest. -/
theorem c6_cache_line_error_handling :
    (∀ st line, (chrs "//").isPrefixOf line = false →
      matchEntryLine line = none →
      processLine st line = (st, [.badLine line])) ∧
    (∀ st line name tname valuestr, (chrs "//").isPrefixOf line = false →
      matchEntryLine line = some (name, tname, valuestr) →
      (name.isEmpty || tname.isEmpty) = true →
      processLine st line = (st, [])) ∧
    (∀ st line name tname valuestr, (chrs "//").isPrefixOf line = false →
      matchEntryLine line = some (name, tname, valuestr) →
      (name.isEmpty || tname.isEmpty) = false →
      ((chrs "-ADVANCED").isSuffixOf name && valuestr == chrs "1") = false →
      typemap tname = none →
      processLine st line = ({ st with docsAcc := [] }, [.unknownType name tname])) ∧
    (∀ pre post bad st, (chrs "//").isPrefixOf bad = false →
      matchEntryLine bad = none →
      (runLines st (pre ++ bad :: post)).1 = (runLines st (pre ++ post)).1) := by
  refine ⟨?_, ?_, ?_, ?_⟩
  · intro st line h1 h2
    simp [processLine, h1, h2]
  · intro st line name tname valuestr h1 h2 h3
    simp [processLine, h1, h2, h3]
  · intro st line name tname valuestr h1 h2 h3 h4 h5
    simp [processLine, h1, h2, h3, h4, h5]
  · intro pre post bad st h1 h2
    rw [runLines_append, runLines_append]
    have hb : processLine (runLines st pre).1 bad = ((runLines st pre).1, [.badLine bad]) := by
      simp [processLine, h1, h2]
    rw [runLines, hb]

/-- C6 witness: the amended clauses at concrete lines. -/
theorem c6_cache_line_error_handling_witness :
    processLine { entries := [], docsAcc := [] } (chrs "no delimiters") =
      ({ entries := [], docsAcc := [] }, [.badLine (chrs "no delimiters")]) ∧
    processLine { entries := [], docsAcc := [] } (chrs ":BOOL=1") =
      ({ entries := [], docsAcc := [] }, []) ∧
    processLine { entries := [], docsAcc := [] } (chrs "BAR:GARBAGE=x") =
      ({ entries := [], docsAcc := [] },
        [.unknownType (chrs "BAR") (chrs "GARBAGE")]) ∧
    (runLines { entries := [], docsAcc := [] }
        ([chrs "A:BOOL=ON"] ++ chrs "no delimiters" :: [chrs "B:BOOL=OFF"])).1 =
      (runLines { entries := [], docsAcc := [] }
        ([chrs "A:BOOL=ON"] ++ [chrs "B:BOOL=OFF"])).1 :=
  ⟨c6_cache_line_error_handling.1 _ (chrs "no delimiters") (by decide) (by decide),
   c6_cache_line_error_handling.2.1 _ (chrs ":BOOL=1") [] (chrs "BOOL") (chrs "1")
      (by decide) (by decide) (by decide),
   c6_cache_line_error_handling.2.2.1 _ (chrs "BAR:GARBAGE=x") (chrs "BAR")
      (chrs "GARBAGE") (chrs "x") (by decide) (by decide) (by decide) (by decide)
      (by decide),
   c6_cache_line_error_handling.2.2.2 [chrs "A:BOOL=ON"] [chrs "B:BOOL=OFF"]
      (chrs "no delimiters") _ (by decide) (by decide)⟩

/-- C7: for every filesystem in which no file exists at the given path,
`fromPath` returns (rather than fails) a cache store whose `exists` flag
is false and whose entry mapping is empty — a missing cache file is a
valid, non-error state. -/
theorem c7_from_path_missing_file (fsys : List Char → Option (List Char))
    (p : List Char) (h : fsys p = none) :
    (fromPath fsys p).existsFlag = false ∧ (fromPath fsys p).entries = [] ∧
    (fromPath fsys p).path = p := by
  simp [fromPath, h]

/-- C7 witness: the empty filesystem at a concrete path. -/
theorem c7_from_path_missing_file_witness :
    (fromPath (fun _ => none) (chrs "/b/CMakeCache.txt")).existsFlag = false ∧
    (fromPath (fun _ => none) (chrs "/b/CMakeCache.txt")).entries = [] ∧
    (fromPath (fun _ => none) (chrs "/b/CMakeCache.txt")).path =
      chrs "/b/CMakeCache.txt" :=
  c7_from_path_missing_file (fun _ => none) (chrs "/b/CMakeCache.txt") rfl

/-- C8: a line suppressed by the `-ADVANCED`-with-value-`"1"` rule leaves
the parse state — the documentation accumulator included — completely
untouched, so doc comments preceding the suppressed line attach as
`helpString` to the next successfully parsed entry line; concretely, the
docstring `Docs here` flows over the suppressed `FOO-ADVANCED` line onto
the `FOO` entry. -/
theorem c8_advanced_line_preserves_docs :
    (∀ st line name tname valuestr, (chrs "//").isPrefixOf line = false →
      matchEntryLine line = some (name, tname, valuestr) →
      (chrs "-ADVANCED").isSuffixOf name = true → valuestr = chrs "1" →
      processLine st line = (st, [])) ∧
    parseCache (chrs "//Docs here\nFOO-ADVANCED:INTERNAL=1\nFOO:BOOL=ON") =
      ({ entries := [(chrs "FOO",
          mkEntry (chrs "FOO") (chrs "ON") .typeBool (chrs "Docs here"))],
         docsAcc := [] }, []) := by
  constructor
  · intro st line name tname valuestr h1 h2 h3 h4
    by_cases he : (name.isEmpty || tname.isEmpty) = true
    · simp [processLine, h1, h2, he]
    · rw [Bool.not_eq_true] at he
      simp [processLine, h1, h2, he, h3, h4]
  · decide

/-- C8 witness: the suppression clause at a concrete line and state. -/
theorem c8_advanced_line_preserves_docs_witness :
    processLine { entries := [], docsAcc := chrs "Docs here " }
        (chrs "FOO-ADVANCED:INTERNAL=1") =
      ({ entries := [], docsAcc := chrs "Docs here " }, []) :=
  c8_advanced_line_preserves_docs.1 _ (chrs "FOO-ADVANCED:INTERNAL=1")
    (chrs "FOO-ADVANCED") (chrs "INTERNAL") (chrs "1")
    (by decide) (by decide) (by decide) (by decide)

/-- C9: `setKit` raises `needsReconfigure` before attempting the
binary-directory removal, so when the kit change needs a clean and the
removal fails, the call fails, the kit is not adopted — and the flag is
nonetheless already true and is not restored. -/
theorem c9_setkit_flag_on_rmdir_failure (st : DriverState) (k : Kit) :
    (setKit true false k st).2 = false ∧
    (setKit true false k st).1.needsReconfigure = true ∧
    (setKit true false k st).1.kit = st.kit := by
  simp [setKit]

/-- C10: `setVariantOptions` with an empty-string build type keeps the
stored build type (the empty string is falsy, like an unset field); an
unset settings or linkage field keeps the stored value; and no driver
state field other than the three variant fields is modified. -/
theorem c10_variant_options_merge (opts : VariantOpts) (st : DriverState) :
    ((opts.buildType = none ∨ opts.buildType = some []) →
      (setVariantOptions opts st).buildType = st.buildType) ∧
    (opts.settings = none →
      (setVariantOptions opts st).configArgs = st.configArgs) ∧
    (opts.linkage = none →
      (setVariantOptions opts st).linkage = st.linkage) ∧
    (setVariantOptions opts st).needsReconfigure = st.needsReconfigure ∧
    (setVariantOptions opts st).kit = st.kit ∧
    (setVariantOptions opts st).targets = st.targets := by
  refine ⟨?_, ?_, ?_, rfl, rfl, rfl⟩
  · rintro (h | h) <;> simp [setVariantOptions, h]
  · intro h
    simp [setVariantOptions, h]
  · intro h
    simp [setVariantOptions, h]

/-- C10 witness: an empty-string build type with unset settings and
linkage leaves all of the state's fields unchanged. -/
theorem c10_variant_options_merge_witness :
    (setVariantOptions ⟨some [], none, none⟩ initDriver).buildType =
      initDriver.buildType ∧
    (setVariantOptions ⟨some [], none, none⟩ initDriver).configArgs =
      initDriver.configArgs ∧
    (setVariantOptions ⟨some [], none, none⟩ initDriver).linkage =
      initDriver.linkage :=
  ⟨(c10_variant_options_merge ⟨some [], none, none⟩ initDriver).1 (Or.inr rfl),
   (c10_variant_options_merge ⟨some [], none, none⟩ initDriver).2.1 rfl,
   (c10_variant_options_merge ⟨some [], none, none⟩ initDriver).2.2.1 rfl⟩

end CMT
